import Mathlib

/-!
Shallow embedding of the Hive consensus-layer mocker (the `CLMocker`
component of the engine simulator).  Pure Go functions become Lean
functions; the RPC collaborators (execution clients) are modelled as an
explicit environment of response functions; `uint64`/`int64` arithmetic is
modelled on `Nat`/`Int` with explicit reductions modulo `2^64`.  Fatal
aborts (`Fatalf`) and nil-pointer panics are modelled as explicit result
constructors.  Concurrency (the six checkpoint mutexes, timers) is not part
of the sequential embedding; each timer-driven invocation is one function
application, and the order of RPC calls inside one invocation is recorded
as an event trace.
-/

/-- Block/state hashes (`common.Hash`), modelled as naturals. -/
abbrev Hash := Nat

/-- Account addresses (`common.Address`), modelled as naturals. -/
abbrev Address := Nat

/-- Go `error` values, modelled as strings. -/
abbrev Err := String

/-- Opaque transactions (`types.Transaction`). -/
abbrev Tx := Nat

/-- Reduction of a natural to the range of Go `uint64`. -/
def u64 (n : Nat) : Nat := n % 2 ^ 64

/-- Go conversion `int64(x)` of a `uint64` value `x` (two's complement reinterpretation), as used by `big.NewInt(int64(...))`. -/
def i64ofU64 (n : Nat) : Int := if n < 2 ^ 63 then (n : Int) else (n : Int) - 2 ^ 64

/-- Low 64 bits of a `big.Int`, reinterpreted as a signed `int64` (Go `(*big.Int).Int64()`). -/
def i64ofInt (n : Int) : Int := ((n + 2 ^ 63).emod (2 ^ 64)) - 2 ^ 63

/-- The fields of `types.Header` the mocker reads: `Number` (a `big.Int`, non-negative for decoded headers), `Time` (`uint64`) and the derived `Hash()`. -/
structure Header where
  number : Nat
  time : Nat
  hash : Hash
deriving DecidableEq, Repr

/-- The fields of `catalyst.ExecutableDataV1` the mocker reads: `Number` and `BlockHash`. -/
structure ExecutableDataV1 where
  number : Nat
  blockHash : Hash
deriving DecidableEq, Repr

/-- `catalyst.ForkchoiceStateV1`. -/
structure ForkchoiceStateV1 where
  headBlockHash : Hash
  safeBlockHash : Hash
  finalizedBlockHash : Hash
deriving DecidableEq, Repr

/-- `catalyst.PayloadAttributesV1`: timestamp (`uint64`), the 32-byte `Random` value and the suggested fee recipient. -/
structure PayloadAttributesV1 where
  timestamp : Nat
  random : Hash
  suggestedFeeRecipient : Address
deriving DecidableEq, Repr

/-- `catalyst.ForkChoiceResponse`: a status string and an optional payload id. -/
structure ForkChoiceResponse where
  status : String
  payloadID : Option Nat
deriving DecidableEq, Repr

/-- `catalyst.ExecutePayloadResponse`: a status string. -/
structure ExecutePayloadResponse where
  status : String
deriving DecidableEq, Repr

/-- An execution-client handle (`*EngineClient`); removal compares handles by identity, modelled by a numeric identity. -/
structure EngineClient where
  id : Nat
deriving DecidableEq, Repr

instance : Inhabited EngineClient := ⟨⟨0⟩⟩

/-- The RPC behaviour of the execution clients, plus the configured terminal total difficulty.  Each field models one collaborator call of the mocker; results are `Except` values: `.error` is a transport-level Go error. -/
structure Env where
  ttd : Int
  totalDifficulty : EngineClient → Except Err Int
  latestHeader : EngineClient → Except Err Header
  blockNumber : EngineClient → Except Err Nat
  headerByNumber : EngineClient → Int → Except Err Header
  forkchoiceUpdated : EngineClient → ForkchoiceStateV1 → Option PayloadAttributesV1 → Except Err ForkChoiceResponse
  getPayload : EngineClient → Option Nat → Except Err ExecutableDataV1
  executePayload : EngineClient → ExecutableDataV1 → Except Err ExecutePayloadResponse
  sendTransaction : EngineClient → Tx → Except Err Unit

/-- The mutable state of the `CLMocker` struct (mutex fields and the embedded `hivesim.T` are not data). History maps are modelled as partial functions, written by pointwise update exactly where the Go code assigns a map key. -/
structure CLMocker where
  engineClients : List EngineClient
  nextBlockProducer : Option EngineClient
  blockProductionMustStop : Bool
  nextFeeRecipient : Address
  randomHistory : Nat → Option Hash
  executedPayloadHistory : Nat → Option ExecutableDataV1
  latestFinalizedNumber : Option Int
  latestFinalizedHeader : Option Header
  latestPayloadBuilt : ExecutableDataV1
  latestExecutedPayload : ExecutableDataV1
  latestForkchoice : ForkchoiceStateV1
  firstPoSBlockNumber : Option Int
  ttdReached : Bool
  posBlockProductionActivated : Bool

/-- Initial state built by `NewCLMocker` (Go zero values for the payload fields). -/
def newCLMocker : CLMocker where
  engineClients := []
  nextBlockProducer := none
  blockProductionMustStop := false
  nextFeeRecipient := 0
  randomHistory := fun _ => none
  executedPayloadHistory := fun _ => none
  latestFinalizedNumber := none
  latestFinalizedHeader := none
  latestPayloadBuilt := { number := 0, blockHash := 0 }
  latestExecutedPayload := { number := 0, blockHash := 0 }
  latestForkchoice := { headBlockHash := 0, safeBlockHash := 0, finalizedBlockHash := 0 }
  firstPoSBlockNumber := none
  ttdReached := false
  posBlockProductionActivated := false

/-- `AddEngineClient`: append the handle to the registry. -/
def addEngineClient (cl : CLMocker) (newEngineClient : EngineClient) : CLMocker :=
  { cl with engineClients := cl.engineClients ++ [newEngineClient] }

/-- The index-scan loop of `RemoveEngineClient` (`i := -1; for j ...; break`): first position of the handle, or `none` for the sentinel `-1`. -/
def findFirstIndex (x : EngineClient) : List EngineClient → Nat → Option Nat
  | [], _ => none
  | c :: rest, j => if c = x then some j else findFirstIndex x rest (j + 1)

/-- `RemoveEngineClient`: find the first position of the handle; if found, overwrite it with the last element and truncate the list by one, otherwise leave the state untouched. -/
def removeEngineClient (cl : CLMocker) (removeEC : EngineClient) : CLMocker :=
  let l := cl.engineClients
  match findFirstIndex removeEC l 0 with
  | none => cl
  | some i =>
      { cl with engineClients := (l.set i (l.getD (l.length - 1) default)).take (l.length - 1) }

/-- Result slot of `broadcastExecutePayload` for one client (`ExecutePayloadOutcome`); the Go zero value has both pointers nil. -/
structure ExecutePayloadOutcome where
  executePayloadResponse : Option ExecutePayloadResponse
  error : Option Err
deriving DecidableEq, Repr

/-- Result slot of `broadcastForkchoiceUpdated` for one client (`ForkChoiceOutcome`). -/
structure ForkChoiceOutcome where
  forkchoiceResponse : Option ForkChoiceResponse
  error : Option Err
deriving DecidableEq, Repr

/-- The broadcast loop shape shared by the two fan-out helpers: a preallocated result slice is filled at position `i` for the client at position `i`, every client is visited, and no iteration exits early. -/
def fanOutLoop (g : EngineClient → β) : List EngineClient → Nat → List β → List β
  | [], _, responses => responses
  | ec :: rest, i, responses => fanOutLoop g rest (i + 1) (responses.set i (g ec))

/-- Per-client body of `broadcastExecutePayload`: either the typed response or the error is recorded. -/
def execPayloadOutcomeOf (env : Env) (payload : ExecutableDataV1) (ec : EngineClient) : ExecutePayloadOutcome :=
  match env.executePayload ec payload with
  | .error e => { executePayloadResponse := none, error := some e }
  | .ok r => { executePayloadResponse := some r, error := none }

/-- `broadcastExecutePayload`: fan the payload out to every registered client and collect one outcome per client. -/
def broadcastExecutePayload (env : Env) (cl : CLMocker) (payload : ExecutableDataV1) : List ExecutePayloadOutcome :=
  fanOutLoop (execPayloadOutcomeOf env payload) cl.engineClients 0
    (List.replicate cl.engineClients.length { executePayloadResponse := none, error := none })

/-- Per-client body of `broadcastForkchoiceUpdated`. -/
def forkchoiceOutcomeOf (env : Env) (fcstate : ForkchoiceStateV1) (payloadAttr : Option PayloadAttributesV1) (ec : EngineClient) : ForkChoiceOutcome :=
  match env.forkchoiceUpdated ec fcstate payloadAttr with
  | .error e => { forkchoiceResponse := none, error := some e }
  | .ok r => { forkchoiceResponse := some r, error := none }

/-- `broadcastForkchoiceUpdated`: fan the forkchoice state (and optional build attributes) out to every registered client and collect one outcome per client. -/
def broadcastForkchoiceUpdated (env : Env) (cl : CLMocker) (fcstate : ForkchoiceStateV1) (payloadAttr : Option PayloadAttributesV1) : List ForkChoiceOutcome :=
  fanOutLoop (forkchoiceOutcomeOf env fcstate payloadAttr) cl.engineClients 0
    (List.replicate cl.engineClients.length { forkchoiceResponse := none, error := none })

/-- Model of Go `rand.Intn n` driven by an externally supplied draw `r`: panics (`none`) when `n = 0`, otherwise yields a value strictly below `n`. -/
def randIntn (n : Nat) (r : Nat) : Option Nat :=
  if n = 0 then none else some (r % n)

/-- Scheduling outcome of one `checkTTD` tick: re-arm the TTD timer, arm the block-production timer, or abort the run (`Fatalf`). -/
inductive TTDAction where
  | rescheduleCheck
  | scheduleMine
  | fatal
deriving DecidableEq, Repr

/-- One tick of `checkTTD`, driven by one random draw `r`: with an empty registry it reschedules itself; otherwise it samples a random client's total difficulty and, at or above the threshold, performs the one-time transition (set `TTDReached`, adopt the client's head as finalized header, point all three forkchoice hashes at it, broadcast, schedule mining). -/
def checkTTD (env : Env) (r : Nat) (cl : CLMocker) : CLMocker × TTDAction :=
  if cl.engineClients.length = 0 then
    (cl, .rescheduleCheck)
  else
    match randIntn cl.engineClients.length r with
    | none => (cl, .fatal)
    | some i =>
        match cl.engineClients[i]? with
        | none => (cl, .fatal)
        | some ec =>
            match env.totalDifficulty ec with
            | .error _ => (cl, .fatal)
            | .ok td =>
                if env.ttd ≤ td then
                  let cl := { cl with ttdReached := true }
                  match env.latestHeader ec with
                  | .error _ => (cl, .fatal)
                  | .ok hdr =>
                      let cl := { cl with
                        latestFinalizedHeader := some hdr
                        latestForkchoice := {
                          headBlockHash := hdr.hash
                          safeBlockHash := hdr.hash
                          finalizedBlockHash := hdr.hash } }
                      let _ := broadcastForkchoiceUpdated env cl cl.latestForkchoice none
                      (cl, .scheduleMine)
                else
                  (cl, .rescheduleCheck)

/-- `stopPoSBlockProduction`. -/
def stopPoSBlockProduction (cl : CLMocker) : CLMocker :=
  { cl with blockProductionMustStop := true }

/-- `isBlockPoS`. -/
def isBlockPoS (cl : CLMocker) (bn : Int) : Bool :=
  match cl.firstPoSBlockNumber with
  | none => false
  | some first => decide (first ≤ bn)

/-- Result of the proposer-selection loop of `minePOSBlock`: the supplied draws ran out while every drawn client was rejected (the Go loop would keep spinning), a fatal abort or panic, or a selected proposer together with its reported block number. -/
inductive SelResult where
  | outOfDraws
  | fatal
  | selected (cl : CLMocker) (lastBlockNumber : Nat)

/-- The proposer-selection loop of `minePOSBlock` (lines 225-258): draw a random client, record it as `NextBlockProducer`, reject it (and redraw) when a known finalized number differs from its reported height or when its header hash at that height differs from the finalized header's hash. -/
def selectLoop (env : Env) (cl : CLMocker) : List Nat → SelResult
  | [] => .outOfDraws
  | r :: rest =>
      match randIntn cl.engineClients.length r with
      | none => .fatal
      | some i =>
          match cl.engineClients[i]? with
          | none => .fatal
          | some ec =>
              let cl := { cl with nextBlockProducer := some ec }
              match env.blockNumber ec with
              | .error _ => .fatal
              | .ok n =>
                  let lastBlockNumber := u64 n
                  let lastBlockNumberBig := i64ofU64 lastBlockNumber
                  if (match cl.latestFinalizedNumber with
                      | none => false
                      | some fn => decide (fn ≠ lastBlockNumberBig)) then
                    selectLoop env cl rest
                  else
                    match env.headerByNumber ec lastBlockNumberBig with
                    | .error _ => .fatal
                    | .ok latestHeader =>
                        match cl.latestFinalizedHeader with
                        | none => .fatal
                        | some fh =>
                            if fh.hash ≠ latestHeader.hash then
                              selectLoop env cl rest
                            else
                              .selected cl lastBlockNumber

/-- Events recorded by one production cycle, in the order the corresponding RPC calls are issued. -/
inductive Event where
  | fcuRequest (ec : EngineClient) (fcstate : ForkchoiceStateV1) (attrs : PayloadAttributesV1)
  | execBroadcast (payload : ExecutableDataV1) (outcomes : List ExecutePayloadOutcome)
  | fcuBroadcast (fcstate : ForkchoiceStateV1) (outcomes : List ForkChoiceOutcome)
deriving DecidableEq, Repr

/-- Result of one `minePOSBlock` invocation. -/
inductive CycleResult where
  | stopped (cl : CLMocker)
  | outOfDraws
  | fatal
  | completed (cl : CLMocker) (trace : List Event)

/-- The header scan of `minePOSBlock` (lines 357-363): the first registered client that returns a header at the new finalized number provides the new reference header. -/
def scanHeaders (env : Env) (num : Int) : List EngineClient → Option Header
  | [] => none
  | ec :: rest =>
      match env.headerByNumber ec num with
      | .ok newHeader => some newHeader
      | .error _ => scanHeaders env num rest

/-- One invocation of `minePOSBlock`, driven by the random draws of the selection loop and the freshly drawn 32-byte `nextRandom` value.  It mirrors the Go control flow: stop-flag check, proposer selection, payload-attribute construction, build request, payload retrieval, execute-payload broadcast, the three forkchoice broadcasts (head, safe, finalized, each field assigned just before its broadcast), history writes, first-PoS-block bookkeeping, finalized-number advance and the header scan.  The per-client `SwitchProtocol` call carries no state in the model, and timer re-arming and the checkpoint mutexes are outside the sequential embedding. -/
def minePOSBlock (env : Env) (draws : List Nat) (nextRandom : Hash) (cl : CLMocker) : CycleResult :=
  if cl.blockProductionMustStop then .stopped cl
  else
    match selectLoop env cl draws with
    | .outOfDraws => .outOfDraws
    | .fatal => .fatal
    | .selected cl lastBlockNumber =>
        match cl.nextBlockProducer, cl.latestFinalizedHeader with
        | some ec, some fh =>
            let payloadAttributes : PayloadAttributesV1 := {
              timestamp := u64 (fh.time + 1)
              random := nextRandom
              suggestedFeeRecipient := cl.nextFeeRecipient }
            let ev0 := Event.fcuRequest ec cl.latestForkchoice payloadAttributes
            match env.forkchoiceUpdated ec cl.latestForkchoice (some payloadAttributes) with
            | .error _ => .fatal
            | .ok resp =>
                match env.getPayload ec resp.payloadID with
                | .error _ => .fatal
                | .ok payload =>
                    let cl := { cl with latestPayloadBuilt := payload }
                    let execOutcomes := broadcastExecutePayload env cl cl.latestPayloadBuilt
                    let cl := { cl with
                      latestExecutedPayload := cl.latestPayloadBuilt
                      executedPayloadHistory := fun n =>
                        if n = cl.latestPayloadBuilt.number then some cl.latestPayloadBuilt
                        else cl.executedPayloadHistory n }
                    let fc1 := { cl.latestForkchoice with headBlockHash := cl.latestPayloadBuilt.blockHash }
                    let cl := { cl with latestForkchoice := fc1 }
                    let out1 := broadcastForkchoiceUpdated env cl cl.latestForkchoice none
                    let fc2 := { cl.latestForkchoice with safeBlockHash := cl.latestPayloadBuilt.blockHash }
                    let cl := { cl with latestForkchoice := fc2 }
                    let out2 := broadcastForkchoiceUpdated env cl cl.latestForkchoice none
                    let fc3 := { cl.latestForkchoice with finalizedBlockHash := cl.latestPayloadBuilt.blockHash }
                    let cl := { cl with latestForkchoice := fc3 }
                    let out3 := broadcastForkchoiceUpdated env cl cl.latestForkchoice none
                    let rhKey := u64 (u64 fh.number + 1)
                    let cl := { cl with randomHistory := fun n =>
                      if n = rhKey then some nextRandom else cl.randomHistory n }
                    let cl := { cl with firstPoSBlockNumber :=
                      match cl.firstPoSBlockNumber with
                      | none => some (i64ofU64 rhKey)
                      | some v => some v }
                    let cl := { cl with latestFinalizedNumber := some (i64ofU64 (u64 (lastBlockNumber + 1))) }
                    match cl.latestFinalizedNumber with
                    | none => .fatal
                    | some newNumber =>
                        match scanHeaders env newNumber cl.engineClients with
                        | none => .fatal
                        | some newHeader =>
                            let cl := { cl with latestFinalizedHeader := some newHeader }
                            .completed cl [ev0,
                              .execBroadcast cl.latestExecutedPayload execOutcomes,
                              .fcuBroadcast fc1 out1,
                              .fcuBroadcast fc2 out2,
                              .fcuBroadcast fc3 out3]
        | _, _ => .fatal

/-- Result of one `setNextFeeRecipient` call: the supplied fuel ran out while the requested producer was never current (the Go loop keeps sleeping and retrying), a nil-pointer panic, or a return value paired with the state at return. -/
inductive FeeRecipientResult where
  | outOfFuel
  | nilDeref
  | done (res : Except Err Int) (cl : CLMocker)

/-- `setNextFeeRecipient` (lines 185-203): once no specific client is requested or the requested client is the current producer, assign `NextFeeRecipient`, then (only if a transaction was supplied) send it — returning the send error while the assignment stays in place — and otherwise return the next block number. -/
def setNextFeeRecipient (env : Env) (feeRecipient : Address) (ec : Option EngineClient) (tx : Option Tx) (cl : CLMocker) : Nat → FeeRecipientResult
  | 0 => .outOfFuel
  | fuel + 1 =>
      if (match ec with
          | none => true
          | some e =>
              match cl.nextBlockProducer with
              | none => false
              | some p => decide (p = e)) then
        let cl := { cl with nextFeeRecipient := feeRecipient }
        match tx with
        | some t =>
            match ec with
            | none => .nilDeref
            | some e =>
                match env.sendTransaction e t with
                | .error err => .done (.error err) cl
                | .ok _ =>
                    match cl.latestFinalizedNumber with
                    | none => .nilDeref
                    | some n => .done (.ok (i64ofInt (i64ofInt n + 1))) cl
        | none =>
            match cl.latestFinalizedNumber with
            | none => .nilDeref
            | some n => .done (.ok (i64ofInt (i64ofInt n + 1))) cl
      else
        setNextFeeRecipient env feeRecipient ec tx cl fuel

/-! ## Lemmas about the broadcast fan-out loops -/

/-- Setting position `i` and then taking `i + 1` elements appends the written element to the unchanged prefix. -/
theorem take_succ_set {α : Type} (x : α) : ∀ (l : List α) (i : Nat), i < l.length → (l.set i x).take (i + 1) = l.take i ++ [x]
  | a :: t, 0, _ => by simp
  | a :: t, i + 1, h => by
      simp only [List.set, List.take, List.cons_append, List.cons.injEq, true_and]
      exact take_succ_set x t i (by simpa using h)

/-- The fan-out loop writes exactly one slot per client, visiting every client: on a result slice of matching length it computes the per-client outcomes past the untouched prefix. -/
theorem fanOutLoop_eq {β : Type} (g : EngineClient → β) :
    ∀ (l : List EngineClient) (i : Nat) (rs : List β), rs.length = i + l.length →
      fanOutLoop g l i rs = rs.take i ++ l.map g
  | [], i, rs, h => by
      simp only [fanOutLoop, List.map_nil, List.append_nil]
      exact (List.take_of_length_le (by simp [h])).symm
  | ec :: rest, i, rs, h => by
      simp only [fanOutLoop, List.map_cons]
      rw [fanOutLoop_eq g rest (i + 1) (rs.set i (g ec))
        (by simp only [List.length_cons] at h; rw [List.length_set]; omega)]
      rw [take_succ_set (g ec) rs i (by simp only [List.length_cons] at h; omega)]
      simp

/-- The execute-payload broadcast equals the per-client outcome map over the registry. -/
theorem broadcastExecutePayload_eq_map (env : Env) (cl : CLMocker) (payload : ExecutableDataV1) :
    broadcastExecutePayload env cl payload = cl.engineClients.map (execPayloadOutcomeOf env payload) := by
  unfold broadcastExecutePayload
  rw [fanOutLoop_eq _ _ 0 _ (by simp)]
  simp

/-- The forkchoice broadcast equals the per-client outcome map over the registry. -/
theorem broadcastForkchoiceUpdated_eq_map (env : Env) (cl : CLMocker) (fcstate : ForkchoiceStateV1) (payloadAttr : Option PayloadAttributesV1) :
    broadcastForkchoiceUpdated env cl fcstate payloadAttr = cl.engineClients.map (forkchoiceOutcomeOf env fcstate payloadAttr) := by
  unfold broadcastForkchoiceUpdated
  rw [fanOutLoop_eq _ _ 0 _ (by simp)]
  simp

/-! ## Lemmas about the proposer-selection loop -/

/-- The selection loop only ever writes `NextBlockProducer`: a selected state is the input state with the chosen proposer recorded. -/
theorem selectLoop_selected_eq {env : Env} {cl cl2 : CLMocker} {n : Nat} :
    ∀ {draws : List Nat}, selectLoop env cl draws = .selected cl2 n →
      ∃ ec, cl2 = { cl with nextBlockProducer := some ec } := by
  intro draws
  induction draws generalizing cl with
  | nil => intro h; exact absurd h (by simp [selectLoop])
  | cons r rest ih =>
      intro h
      simp only [selectLoop] at h
      split at h
      · exact absurd h (by simp)
      · split at h
        · exact absurd h (by simp)
        · split at h
          · exact absurd h (by simp)
          · split at h
            · obtain ⟨ec2, hec2⟩ := ih h
              exact ⟨ec2, hec2⟩
            · split at h
              · exact absurd h (by simp)
              · split at h
                · exact absurd h (by simp)
                · split at h
                  · obtain ⟨ec2, hec2⟩ := ih h
                    exact ⟨ec2, hec2⟩
                  · cases h
                    exact ⟨_, rfl⟩

/-- C2 (amended): a client accepted by the selection loop passed both checks of the loop body: its reported height equals the orchestrator's last-known finalized number whenever one is known (on the first cycle `LatestFinalizedNumber` is still nil and the height check is skipped), and its header hash at that height equals the last-known finalized header's hash; a client failing a check is never returned, the loop redraws instead. -/
theorem selectLoop_selected_checks {env : Env} {cl2 : CLMocker} {n : Nat} :
    ∀ (cl : CLMocker) (draws : List Nat), selectLoop env cl draws = .selected cl2 n →
      (cl.latestFinalizedNumber = none ∨ cl.latestFinalizedNumber = some (i64ofU64 n)) ∧
      ∃ ec m hdr fh,
        cl2.nextBlockProducer = some ec ∧
        env.blockNumber ec = .ok m ∧
        n = u64 m ∧
        env.headerByNumber ec (i64ofU64 n) = .ok hdr ∧
        cl.latestFinalizedHeader = some fh ∧
        fh.hash = hdr.hash := by
  intro cl draws
  induction draws generalizing cl with
  | nil => intro h; exact absurd h (by simp [selectLoop])
  | cons r rest ih =>
      intro h
      simp only [selectLoop] at h
      split at h
      · exact absurd h (by simp)
      · split at h
        · exact absurd h (by simp)
        · split at h
          · exact absurd h (by simp)
          · split at h
            · obtain ⟨hdisj, hex⟩ := ih _ h
              exact ⟨hdisj, hex⟩
            · split at h
              · exact absurd h (by simp)
              · split at h
                · exact absurd h (by simp)
                · split at h
                  · obtain ⟨hdisj, hex⟩ := ih _ h
                    exact ⟨hdisj, hex⟩
                  · rename_i ec eqIdx xBN m hbn hnum xH hdr hhdr xFH fh hfh hhash
                    cases h
                    refine ⟨?_, ec, m, hdr, fh, rfl, hbn, rfl, hhdr, hfh, not_not.mp hhash⟩
                    cases hfin : cl.latestFinalizedNumber with
                    | none => exact Or.inl rfl
                    | some fn =>
                        rw [hfin] at hnum
                        simp only [decide_eq_true_eq, Decidable.not_not] at hnum
                        exact Or.inr (congrArg some hnum)

/-- Full characterization of a completed production cycle: the final state and the event trace as functions of the pre-state, the selected proposer, its reported height, the previous finalized header, the built payload and the rescanned header. -/
theorem minePOSBlock_completed_eq {env : Env} {draws : List Nat} {rnd : Hash} {cl st : CLMocker} {tr : List Event}
    (h : minePOSBlock env draws rnd cl = .completed st tr) :
    ∃ ec lastBlockNumber fh resp payload newHeader,
      cl.latestFinalizedHeader = some fh ∧
      env.forkchoiceUpdated ec cl.latestForkchoice
        (some { timestamp := u64 (fh.time + 1), random := rnd, suggestedFeeRecipient := cl.nextFeeRecipient }) = .ok resp ∧
      env.getPayload ec resp.payloadID = .ok payload ∧
      scanHeaders env (i64ofU64 (u64 (lastBlockNumber + 1))) cl.engineClients = some newHeader ∧
      st = { engineClients := cl.engineClients
             nextBlockProducer := some ec
             blockProductionMustStop := cl.blockProductionMustStop
             nextFeeRecipient := cl.nextFeeRecipient
             randomHistory := fun k => if k = u64 (u64 fh.number + 1) then some rnd else cl.randomHistory k
             executedPayloadHistory := fun k => if k = payload.number then some payload else cl.executedPayloadHistory k
             latestFinalizedNumber := some (i64ofU64 (u64 (lastBlockNumber + 1)))
             latestFinalizedHeader := some newHeader
             latestPayloadBuilt := payload
             latestExecutedPayload := payload
             latestForkchoice := { headBlockHash := payload.blockHash, safeBlockHash := payload.blockHash,
                                   finalizedBlockHash := payload.blockHash }
             firstPoSBlockNumber :=
               (match cl.firstPoSBlockNumber with
                | none => some (i64ofU64 (u64 (u64 fh.number + 1)))
                | some v => some v)
             ttdReached := cl.ttdReached
             posBlockProductionActivated := cl.posBlockProductionActivated } ∧
      tr = [Event.fcuRequest ec cl.latestForkchoice
              { timestamp := u64 (fh.time + 1), random := rnd, suggestedFeeRecipient := cl.nextFeeRecipient },
            Event.execBroadcast payload (broadcastExecutePayload env cl payload),
            Event.fcuBroadcast { cl.latestForkchoice with headBlockHash := payload.blockHash }
              (broadcastForkchoiceUpdated env cl { cl.latestForkchoice with headBlockHash := payload.blockHash } none),
            Event.fcuBroadcast { cl.latestForkchoice with headBlockHash := payload.blockHash, safeBlockHash := payload.blockHash }
              (broadcastForkchoiceUpdated env cl { cl.latestForkchoice with headBlockHash := payload.blockHash, safeBlockHash := payload.blockHash } none),
            Event.fcuBroadcast { headBlockHash := payload.blockHash, safeBlockHash := payload.blockHash,
                                 finalizedBlockHash := payload.blockHash }
              (broadcastForkchoiceUpdated env cl { headBlockHash := payload.blockHash, safeBlockHash := payload.blockHash, finalizedBlockHash := payload.blockHash } none)] := by
  simp only [minePOSBlock] at h
  split at h
  · exact absurd h (by simp)
  · split at h
    · exact absurd h (by simp)
    · exact absurd h (by simp)
    · rename_i cl1 lastBlockNumber hsel
      obtain ⟨ec, rfl⟩ := selectLoop_selected_eq hsel
      split at h
      · rename_i ecP fh hprodEq hfhEq
        obtain rfl : ec = ecP := by simpa using hprodEq
        split at h
        · exact absurd h (by simp)
        · rename_i resp hfcu
          split at h
          · exact absurd h (by simp)
          · rename_i payload hgp
            split at h
            · exact absurd h (by simp)
            · rename_i newHeader hscan
              cases h
              exact ⟨ec, lastBlockNumber, fh, resp, payload, newHeader, hfhEq, hfcu, hgp, hscan, rfl, rfl⟩
      · exact absurd h (by simp)

/-! ## Claim theorems -/

/-- C1: a completed production cycle leaves all three ChainPointer hashes of `LatestForkchoice` equal to the `BlockHash` of the cycle's `LatestExecutedPayload`, and the trace shows the three forkchoice broadcasts issued after the execute-payload broadcast in the order head, safe, finalized, each broadcast covering every registered client and completing before the next pointer field changes. -/
theorem minePOSBlock_chain_pointers {env : Env} {draws : List Nat} {rnd : Hash} {cl st : CLMocker} {tr : List Event}
    (h : minePOSBlock env draws rnd cl = .completed st tr) :
    st.latestForkchoice.headBlockHash = st.latestExecutedPayload.blockHash ∧
    st.latestForkchoice.safeBlockHash = st.latestExecutedPayload.blockHash ∧
    st.latestForkchoice.finalizedBlockHash = st.latestExecutedPayload.blockHash ∧
    ∃ ec attrs execOuts o1 o2 o3,
      List.length execOuts = cl.engineClients.length ∧
      List.length o1 = cl.engineClients.length ∧
      List.length o2 = cl.engineClients.length ∧
      List.length o3 = cl.engineClients.length ∧
      tr = [Event.fcuRequest ec cl.latestForkchoice attrs,
            Event.execBroadcast st.latestExecutedPayload execOuts,
            Event.fcuBroadcast { cl.latestForkchoice with
              headBlockHash := st.latestExecutedPayload.blockHash } o1,
            Event.fcuBroadcast { cl.latestForkchoice with
              headBlockHash := st.latestExecutedPayload.blockHash,
              safeBlockHash := st.latestExecutedPayload.blockHash } o2,
            Event.fcuBroadcast
              (ForkchoiceStateV1.mk st.latestExecutedPayload.blockHash
                st.latestExecutedPayload.blockHash st.latestExecutedPayload.blockHash) o3] := by
  obtain ⟨ec, lbn, fh, resp, payload, newHeader, hfh, hfcu, hgp, hscan, hst, htr⟩ :=
    minePOSBlock_completed_eq h
  subst hst
  refine ⟨rfl, rfl, rfl, ec, _, broadcastExecutePayload env cl payload,
    broadcastForkchoiceUpdated env cl { cl.latestForkchoice with headBlockHash := payload.blockHash } none,
    broadcastForkchoiceUpdated env cl { cl.latestForkchoice with headBlockHash := payload.blockHash, safeBlockHash := payload.blockHash } none,
    broadcastForkchoiceUpdated env cl { headBlockHash := payload.blockHash, safeBlockHash := payload.blockHash, finalizedBlockHash := payload.blockHash } none,
    ?_, ?_, ?_, ?_, htr⟩
  · rw [broadcastExecutePayload_eq_map]; exact List.length_map _ _
  · rw [broadcastForkchoiceUpdated_eq_map]; exact List.length_map _ _
  · rw [broadcastForkchoiceUpdated_eq_map]; exact List.length_map _ _
  · rw [broadcastForkchoiceUpdated_eq_map]; exact List.length_map _ _

/-- Witness environment: two clients, client 0 reporting height 1 and client 1 reporting height 2, consistent headers at heights 1, 2 and 3, payload builds keyed by the head hash of the build request. -/
def envW : Env where
  ttd := 100
  totalDifficulty := fun _ => .ok 100
  latestHeader := fun _ => .ok { number := 0, time := 0, hash := 100 }
  blockNumber := fun ec => if ec.id = 0 then .ok 1 else .ok 2
  headerByNumber := fun _ n =>
    if n = 1 then .ok { number := 1, time := 0, hash := 100 }
    else if n = 2 then .ok { number := 2, time := 9, hash := 300 }
    else if n = 3 then .ok { number := 3, time := 20, hash := 400 }
    else .error "no header"
  forkchoiceUpdated := fun _ fcstate _ => .ok { status := "SUCCESS", payloadID := some fcstate.headBlockHash }
  getPayload := fun _ pid =>
    match pid with
    | some 100 => .ok { number := 5, blockHash := 201 }
    | some 201 => .ok { number := 5, blockHash := 202 }
    | _ => .error "no payload"
  executePayload := fun _ _ => .ok { status := "VALID" }
  sendTransaction := fun _ _ => .error "send failed"

/-- Witness pre-state: the state right after the TTD transition adopted the block-0 header with hash 100. -/
def clW : CLMocker := { newCLMocker with
  engineClients := [⟨0⟩, ⟨1⟩]
  latestFinalizedHeader := some { number := 0, time := 0, hash := 100 }
  latestForkchoice := { headBlockHash := 100, safeBlockHash := 100, finalizedBlockHash := 100 }
  ttdReached := true }

/-- Witness for C1: the concrete cycle on `envW`/`clW` completes and its final pointers all equal the executed payload's hash. -/
theorem minePOSBlock_chain_pointers_witness :
    ∃ st tr, minePOSBlock envW [0] 11 clW = .completed st tr ∧
      st.latestForkchoice.headBlockHash = st.latestExecutedPayload.blockHash ∧
      st.latestForkchoice.safeBlockHash = st.latestExecutedPayload.blockHash ∧
      st.latestForkchoice.finalizedBlockHash = st.latestExecutedPayload.blockHash := by
  obtain ⟨h1, h2, h3, _⟩ := @minePOSBlock_chain_pointers envW [0] 11 clW _ _ rfl
  exact ⟨_, _, rfl, h1, h2, h3⟩

/-- C8: the build request of a completed cycle carries payload attributes constructed fresh that cycle: timestamp equal to the prior finalized header's timestamp plus one (as uint64), the freshly drawn random value of this cycle, and the current `NextFeeRecipient`. -/
theorem minePOSBlock_payload_attributes {env : Env} {draws : List Nat} {rnd : Hash} {cl st : CLMocker} {tr : List Event}
    (h : minePOSBlock env draws rnd cl = .completed st tr) :
    ∃ ec fh attrs,
      cl.latestFinalizedHeader = some fh ∧
      tr.head? = some (Event.fcuRequest ec cl.latestForkchoice attrs) ∧
      attrs.timestamp = u64 (fh.time + 1) ∧
      attrs.random = rnd ∧
      attrs.suggestedFeeRecipient = cl.nextFeeRecipient := by
  obtain ⟨ec, lbn, fh, resp, payload, newHeader, hfh, hfcu, hgp, hscan, hst, htr⟩ :=
    minePOSBlock_completed_eq h
  subst htr
  exact ⟨ec, fh, _, hfh, rfl, rfl, rfl, rfl⟩

/-- Witness for C8: on the concrete completed cycle the build request's attributes are the finalized timestamp plus one, the drawn random value 11 and the current fee recipient. -/
theorem minePOSBlock_payload_attributes_witness :
    ∃ st tr ec fh attrs,
      minePOSBlock envW [0] 11 clW = .completed st tr ∧
      clW.latestFinalizedHeader = some fh ∧
      tr.head? = some (Event.fcuRequest ec clW.latestForkchoice attrs) ∧
      attrs.timestamp = u64 (fh.time + 1) ∧
      attrs.random = 11 ∧
      attrs.suggestedFeeRecipient = clW.nextFeeRecipient := by
  obtain ⟨ec, fh, attrs, hfh, hhead, h1, h2, h3⟩ :=
    @minePOSBlock_payload_attributes envW [0] 11 clW _ _ rfl
  exact ⟨_, _, ec, fh, attrs, rfl, hfh, hhead, h1, h2, h3⟩

/-- C3: `FirstPoSBlockNumber` starts out nil and is written at most once: a completed cycle preserves any already-set value, and sets the field (only) when it was still nil. -/
theorem minePOSBlock_firstPoSBlockNumber_write_once :
    newCLMocker.firstPoSBlockNumber = none ∧
    ∀ (env : Env) (draws : List Nat) (rnd : Hash) (cl st : CLMocker) (tr : List Event),
      minePOSBlock env draws rnd cl = .completed st tr →
        (∀ v, cl.firstPoSBlockNumber = some v → st.firstPoSBlockNumber = some v) ∧
        (cl.firstPoSBlockNumber = none → ∃ w, st.firstPoSBlockNumber = some w) := by
  refine ⟨rfl, ?_⟩
  intro env draws rnd cl st tr h
  obtain ⟨ec, lbn, fh, resp, payload, newHeader, hfh, hfcu, hgp, hscan, hst, htr⟩ :=
    minePOSBlock_completed_eq h
  subst hst
  constructor
  · intro v hv
    simp only [hv]
  · intro hnone
    exact ⟨i64ofU64 (u64 (u64 fh.number + 1)), by simp only [hnone]⟩

/-- Witness for C3: the field is nil in the witness pre-state and set by the concrete completed cycle. -/
theorem minePOSBlock_firstPoSBlockNumber_write_once_witness :
    clW.firstPoSBlockNumber = none ∧
    ∃ st tr, minePOSBlock envW [0] 11 clW = .completed st tr ∧ ∃ w, st.firstPoSBlockNumber = some w := by
  obtain ⟨hpres, hset⟩ :=
    minePOSBlock_firstPoSBlockNumber_write_once.2 envW [0] 11 clW _ _ rfl
  exact ⟨rfl, _, _, rfl, hset rfl⟩

/-- C4 (amended): history entries are never removed by a production cycle, and an existing entry can change only when the cycle's newly written key collides with it: the executed-payload entry only at the new payload's block number, the randomness entry only at the cycle's new randomness key.  When the written keys are fresh (strictly growing block numbers, as with conforming clients) the maps are append-only. -/
theorem minePOSBlock_history_preservation {env : Env} {draws : List Nat} {rnd : Hash} {cl st : CLMocker} {tr : List Event}
    (h : minePOSBlock env draws rnd cl = .completed st tr) :
    (∀ k v, cl.executedPayloadHistory k = some v →
        st.executedPayloadHistory k = some v ∨ k = st.latestExecutedPayload.number) ∧
    (∀ k, (cl.executedPayloadHistory k).isSome → (st.executedPayloadHistory k).isSome) ∧
    st.executedPayloadHistory st.latestExecutedPayload.number = some st.latestExecutedPayload ∧
    ∃ rk, st.randomHistory rk = some rnd ∧
      (∀ k v, cl.randomHistory k = some v → st.randomHistory k = some v ∨ k = rk) ∧
      (∀ k, (cl.randomHistory k).isSome → (st.randomHistory k).isSome) := by
  obtain ⟨ec, lbn, fh, resp, payload, newHeader, hfh, hfcu, hgp, hscan, hst, htr⟩ :=
    minePOSBlock_completed_eq h
  subst hst
  refine ⟨?_, ?_, by simp, u64 (u64 fh.number + 1), by simp, ?_, ?_⟩
  · intro k v hk
    by_cases hkp : k = payload.number
    · exact Or.inr hkp
    · exact Or.inl (by simp [hkp, hk])
  · intro k hk
    by_cases hkp : k = payload.number <;> simp [hkp, hk]
  · intro k v hk
    by_cases hkr : k = u64 (u64 fh.number + 1)
    · exact Or.inr hkr
    · exact Or.inl (by simp [hkr, hk])
  · intro k hk
    by_cases hkr : k = u64 (u64 fh.number + 1) <;> simp [hkr, hk]

/-- Witness pre-state for the history-preservation witness: the registry and chain state of `clW` with one pre-existing entry under key 9 in each history map. -/
def clW4 : CLMocker := { clW with
  executedPayloadHistory := fun n => if n = 9 then some { number := 9, blockHash := 999 } else none
  randomHistory := fun n => if n = 9 then some 7 else none }

/-- Witness for C4 (amended): after the concrete completed cycle the pre-existing entries under key 9 are still present and the new payload entry was written. -/
theorem minePOSBlock_history_preservation_witness :
    ∃ st tr, minePOSBlock envW [0] 11 clW4 = .completed st tr ∧
      ((st.executedPayloadHistory 9).isSome ∧ (st.randomHistory 9).isSome ∧
       st.executedPayloadHistory st.latestExecutedPayload.number = some st.latestExecutedPayload) := by
  obtain ⟨hpres, hkeep, hnew, rk, hrk, hrpres, hrkeep⟩ :=
    @minePOSBlock_history_preservation envW [0] 11 clW4 _ _ rfl
  exact ⟨_, _, rfl, hkeep 9 (by decide), hrkeep 9 (by decide), hnew⟩

/-- Counterexample for C4 as stated: with the same environment, the cycle after `clW` writes the executed-payload entry for block number 5, and the next cycle overwrites that same key with a different payload, so re-querying key 5 no longer returns the originally written value. -/
theorem executedPayloadHistory_overwritten :
    ∃ st1 tr1 st2 tr2,
      minePOSBlock envW [0] 11 clW = .completed st1 tr1 ∧
      st1.executedPayloadHistory 5 = some { number := 5, blockHash := 201 } ∧
      minePOSBlock envW [1] 12 st1 = .completed st2 tr2 ∧
      st2.executedPayloadHistory 5 = some { number := 5, blockHash := 202 } ∧
      ({ number := 5, blockHash := 201 } : ExecutableDataV1) ≠ { number := 5, blockHash := 202 } :=
  ⟨_, _, _, _, rfl, rfl, rfl, rfl, by decide⟩

/-- Counterexample for C2 as stated: on the first cycle after the transition `LatestFinalizedNumber` is still nil, and a client whose reported height does not equal any known finalized number is nevertheless accepted as proposer (only the hash check applied). -/
theorem selectLoop_height_check_not_always_enforced :
    ¬ (∀ (env : Env) (cl : CLMocker) (draws : List Nat) (cl2 : CLMocker) (n : Nat),
        selectLoop env cl draws = .selected cl2 n →
        cl.latestFinalizedNumber = some (i64ofU64 n)) := by
  intro hall
  have h := hall envW clW [0] { clW with nextBlockProducer := some ⟨0⟩ } 1 rfl
  exact absurd h (by decide)

/-- Witness for C2 (amended): the selection on the concrete state accepts client 0 with reported height 1 while no finalized number is known, and its header hash matches the finalized header's hash. -/
theorem selectLoop_selected_checks_witness :
    (clW.latestFinalizedNumber = none ∨ clW.latestFinalizedNumber = some (i64ofU64 1)) ∧
    ∃ ec m hdr fh,
      ({ clW with nextBlockProducer := some ⟨0⟩ } : CLMocker).nextBlockProducer = some ec ∧
      envW.blockNumber ec = .ok m ∧
      (1 : Nat) = u64 m ∧
      envW.headerByNumber ec (i64ofU64 1) = .ok hdr ∧
      clW.latestFinalizedHeader = some fh ∧
      fh.hash = hdr.hash :=
  @selectLoop_selected_checks envW { clW with nextBlockProducer := some ⟨0⟩ } 1 clW [0] rfl

/-- C5: each broadcast helper returns exactly one outcome per registered client, indexed by the client's position; every entry is the per-client call outcome (the typed success response, or the error), and no client is skipped because an earlier client erred. -/
theorem broadcast_outcome_per_client (env : Env) (cl : CLMocker) (payload : ExecutableDataV1)
    (fcstate : ForkchoiceStateV1) (payloadAttr : Option PayloadAttributesV1) :
    List.length (broadcastExecutePayload env cl payload) = cl.engineClients.length ∧
    (∀ i : Nat, (broadcastExecutePayload env cl payload)[i]? =
      (cl.engineClients[i]?).map (execPayloadOutcomeOf env payload)) ∧
    (∀ ec, (match env.executePayload ec payload with
            | .ok r => execPayloadOutcomeOf env payload ec =
                { executePayloadResponse := some r, error := none }
            | .error e => execPayloadOutcomeOf env payload ec =
                { executePayloadResponse := none, error := some e })) ∧
    List.length (broadcastForkchoiceUpdated env cl fcstate payloadAttr) = cl.engineClients.length ∧
    (∀ i : Nat, (broadcastForkchoiceUpdated env cl fcstate payloadAttr)[i]? =
      (cl.engineClients[i]?).map (forkchoiceOutcomeOf env fcstate payloadAttr)) ∧
    (∀ ec, (match env.forkchoiceUpdated ec fcstate payloadAttr with
            | .ok r => forkchoiceOutcomeOf env fcstate payloadAttr ec =
                { forkchoiceResponse := some r, error := none }
            | .error e => forkchoiceOutcomeOf env fcstate payloadAttr ec =
                { forkchoiceResponse := none, error := some e })) := by
  refine ⟨?_, ?_, ?_, ?_, ?_, ?_⟩
  · rw [broadcastExecutePayload_eq_map]; exact List.length_map _ _
  · intro i
    rw [broadcastExecutePayload_eq_map, List.getElem?_map]
  · intro ec
    unfold execPayloadOutcomeOf
    cases env.executePayload ec payload <;> simp
  · rw [broadcastForkchoiceUpdated_eq_map]; exact List.length_map _ _
  · intro i
    rw [broadcastForkchoiceUpdated_eq_map, List.getElem?_map]
  · intro ec
    unfold forkchoiceOutcomeOf
    cases env.forkchoiceUpdated ec fcstate payloadAttr <;> simp

/-- C6: a detector tick with an empty client registry changes no orchestrator state and reschedules another tick. -/
theorem checkTTD_empty_registry_noop (env : Env) (r : Nat) (cl : CLMocker)
    (h : cl.engineClients = []) :
    checkTTD env r cl = (cl, TTDAction.rescheduleCheck) := by
  simp [checkTTD, h]

/-- Witness for C6: the tick on the freshly constructed mocker (empty registry) is a no-op that reschedules. -/
theorem checkTTD_empty_registry_noop_witness :
    checkTTD envW 0 newCLMocker = (newCLMocker, TTDAction.rescheduleCheck) :=
  checkTTD_empty_registry_noop envW 0 newCLMocker rfl

/-- The index scan returns the sentinel exactly when the handle is absent. -/
theorem findFirstIndex_none_iff {x : EngineClient} :
    ∀ {l : List EngineClient} {j : Nat}, findFirstIndex x l j = none ↔ x ∉ l := by
  intro l
  induction l with
  | nil => intro j; simp [findFirstIndex]
  | cons c rest ih =>
      intro j
      by_cases hc : c = x
      · simp [findFirstIndex, hc]
      · simp only [findFirstIndex, hc, if_false, List.mem_cons]
        rw [ih]
        constructor
        · intro hnx hmem
          rcases hmem with hmem | hmem
          · exact hc hmem.symm
          · exact hnx hmem
        · intro hnx hmem
          exact hnx (Or.inr hmem)

/-- The index scan, when it finds a position, finds the first matching position (relative to its start accumulator). -/
theorem findFirstIndex_some_spec {x : EngineClient} :
    ∀ {l : List EngineClient} {j k : Nat}, findFirstIndex x l j = some k →
      j ≤ k ∧ l[k - j]? = some x ∧ ∀ m, m < k - j → l[m]? ≠ some x := by
  intro l
  induction l with
  | nil => intro j k h; exact absurd h (by simp [findFirstIndex])
  | cons c rest ih =>
      intro j k h
      by_cases hc : c = x
      · rw [findFirstIndex, if_pos hc] at h
        obtain rfl : j = k := by exact Option.some.inj h
        subst hc
        refine ⟨Nat.le_refl _, ?_, ?_⟩
        · simp
        · intro m hm
          exact absurd hm (by simp)
      · rw [findFirstIndex, if_neg hc] at h
        obtain ⟨hle, hget, hfirst⟩ := ih h
        have hjk : j + 1 ≤ k := hle
        refine ⟨Nat.le_of_succ_le hjk, ?_, ?_⟩
        · have : k - j = (k - (j + 1)) + 1 := by omega
          rw [this, List.getElem?_cons_succ]
          exact hget
        · intro m hm
          cases m with
          | zero => simpa using fun h => hc h
          | succ m0 =>
              rw [List.getElem?_cons_succ]
              exact hfirst m0 (by omega)

/-- C7: `RemoveEngineClient` removes a present handle with swap-with-last-and-truncate semantics — the first matching position is overwritten with the last element and the list shrinks by one — and leaves the state untouched when the handle is absent. -/
theorem removeEngineClient_swap_truncate (cl : CLMocker) (x : EngineClient) :
    (x ∉ cl.engineClients → removeEngineClient cl x = cl) ∧
    (x ∈ cl.engineClients →
      ∃ i, cl.engineClients[i]? = some x ∧
        (∀ m, m < i → cl.engineClients[m]? ≠ some x) ∧
        (removeEngineClient cl x).engineClients.length + 1 = cl.engineClients.length ∧
        (∀ j, (removeEngineClient cl x).engineClients[j]? =
          if j < cl.engineClients.length - 1 then
            (if j = i then some (cl.engineClients.getD (cl.engineClients.length - 1) default)
             else cl.engineClients[j]?)
          else none)) := by
  constructor
  · intro hx
    simp only [removeEngineClient]
    rw [findFirstIndex_none_iff.mpr hx]
  · intro hx
    obtain ⟨k, hk⟩ : ∃ k, findFirstIndex x cl.engineClients 0 = some k := by
      cases hopt : findFirstIndex x cl.engineClients 0 with
      | none => exact absurd hx (findFirstIndex_none_iff.mp hopt)
      | some k => exact ⟨k, rfl⟩
    obtain ⟨hle, hget, hfirst⟩ := findFirstIndex_some_spec hk
    rw [Nat.sub_zero] at hget hfirst
    have hrem : (removeEngineClient cl x).engineClients =
        (cl.engineClients.set k (cl.engineClients.getD (cl.engineClients.length - 1) default)).take
          (cl.engineClients.length - 1) := by
      simp only [removeEngineClient]
      rw [hk]
    have hklen : k < cl.engineClients.length := by
      rcases List.getElem?_eq_some.mp hget with ⟨h, _⟩
      exact h
    refine ⟨k, hget, hfirst, ?_, ?_⟩
    · rw [hrem, List.length_take, List.length_set]
      omega
    · intro j
      rw [hrem, List.getElem?_take, List.getElem?_set]
      by_cases hj : j < cl.engineClients.length - 1
      · rw [if_pos hj]
        by_cases hjk : j = k
        · subst hjk
          rw [if_pos hj, if_pos rfl, if_pos rfl, if_pos hklen]
        · rw [if_pos hj, if_neg hjk, if_neg (fun h => hjk h.symm)]
      · rw [if_neg hj, if_neg hj]

/-- Witness registry state for C7: three registered handles. -/
def cl7 : CLMocker := { newCLMocker with engineClients := [⟨1⟩, ⟨2⟩, ⟨3⟩] }

/-- Witness for C7: removing the present handle 2 from the three-element registry. -/
theorem removeEngineClient_swap_truncate_witness :
    (⟨2⟩ : EngineClient) ∈ cl7.engineClients ∧
    ∃ i, cl7.engineClients[i]? = some ⟨2⟩ ∧
      (∀ m, m < i → cl7.engineClients[m]? ≠ some ⟨2⟩) ∧
      (removeEngineClient cl7 ⟨2⟩).engineClients.length + 1 = cl7.engineClients.length ∧
      (∀ j, (removeEngineClient cl7 ⟨2⟩).engineClients[j]? =
        if j < cl7.engineClients.length - 1 then
          (if j = i then some (cl7.engineClients.getD (cl7.engineClients.length - 1) default)
           else cl7.engineClients[j]?)
        else none) :=
  ⟨by decide, (removeEngineClient_swap_truncate cl7 ⟨2⟩).2 (by decide)⟩

/-- C9: when the requested client is the current producer and the supplied transaction's send fails, `setNextFeeRecipient` returns the send error, but `NextFeeRecipient` was already assigned before the send: the returned state carries the caller's fee recipient despite the error. -/
theorem setNextFeeRecipient_error_after_set {env : Env} {feeRecipient : Address}
    {e : EngineClient} {t : Tx} {cl : CLMocker} {err : Err} {fuel : Nat}
    (hprod : cl.nextBlockProducer = some e)
    (hsend : env.sendTransaction e t = .error err) :
    setNextFeeRecipient env feeRecipient (some e) (some t) cl (fuel + 1) =
      .done (.error err) { cl with nextFeeRecipient := feeRecipient } := by
  simp [setNextFeeRecipient, hprod, hsend]

/-- Witness producer state for C9. -/
def cl9 : CLMocker := { newCLMocker with nextBlockProducer := some ⟨0⟩ }

/-- Witness for C9: the concrete call returns the send error of `envW` while the state already holds fee recipient 9. -/
theorem setNextFeeRecipient_error_after_set_witness :
    setNextFeeRecipient envW 9 (some ⟨0⟩) (some 5) cl9 1 =
      .done (.error "send failed") { cl9 with nextFeeRecipient := 9 } :=
  @setNextFeeRecipient_error_after_set envW 9 ⟨0⟩ 5 cl9 "send failed" 0 rfl rfl

/-- C10: with a non-empty registry the proposer draw of the production cycle is always in bounds (`rand.Intn` yields an index strictly below the registry length, so the indexing succeeds), while with an empty registry and the stop flag down the cycle has no guard and aborts on the draw. -/
theorem minePOSBlock_proposer_draw_bounds :
    (∀ (cl : CLMocker) (r : Nat), cl.engineClients ≠ [] →
      ∃ i ec, randIntn cl.engineClients.length r = some i ∧ i < cl.engineClients.length ∧
        cl.engineClients[i]? = some ec) ∧
    (∀ (env : Env) (r : Nat) (rest : List Nat) (rnd : Hash) (cl : CLMocker),
      cl.blockProductionMustStop = false → cl.engineClients = [] →
      minePOSBlock env (r :: rest) rnd cl = .fatal) := by
  constructor
  · intro cl r hne
    have hpos : 0 < cl.engineClients.length := List.length_pos.mpr hne
    have hlt : r % cl.engineClients.length < cl.engineClients.length := Nat.mod_lt _ hpos
    refine ⟨r % cl.engineClients.length, cl.engineClients[r % cl.engineClients.length], ?_, hlt, ?_⟩
    · simp [randIntn, Nat.ne_of_gt hpos]
    · exact List.getElem?_eq_getElem hlt
  · intro env r rest rnd cl hstop hempty
    simp [minePOSBlock, hstop, selectLoop, hempty, randIntn]

/-- Witness for C10: on the two-client registry the draw for 0 lands in bounds, and on the empty fresh mocker the cycle aborts at the draw. -/
theorem minePOSBlock_proposer_draw_bounds_witness :
    (∃ i ec, randIntn clW.engineClients.length 0 = some i ∧ i < clW.engineClients.length ∧
      clW.engineClients[i]? = some ec) ∧
    minePOSBlock envW [0] 11 newCLMocker = .fatal :=
  ⟨minePOSBlock_proposer_draw_bounds.1 clW 0 (by decide),
   minePOSBlock_proposer_draw_bounds.2 envW 0 [] 11 newCLMocker rfl rfl⟩
